import Mathlib

/-!
Verification of `FittingProblemMultipleCondition.py` (SirIsaac).

We shallowly embed the multi-condition aggregator: Python dictionaries keyed
by model name become insertion-ordered association lists, floating-point
scalars become rationals, exceptions become an explicit error component, and
the opaque single-condition fitting engine becomes a function from the sweep
index and model name to either an error or a (cost, penalty) pair.
-/

namespace FPMC

/-- Association-list lookup, modelling Python `d[key]` / `d.has_key(key)`
on a dictionary represented in insertion order. -/
def lookupA {α : Type} : List (String × α) → String → Option α
  | [], _ => none
  | (k, v) :: rest, key => if k = key then some v else lookupA rest key

/-- Association-list assignment, modelling Python `d[key] = v`: replaces the
value in place when the key is present, otherwise appends at the end
(Python dicts preserve insertion order). -/
def insertA {α : Type} : List (String × α) → String → α → List (String × α)
  | [], key, v => [(key, v)]
  | (k, w) :: rest, key, v =>
    if k = key then (key, v) :: rest else (k, w) :: insertA rest key v

/-- Truth test for an `Except` value, modelling "the Python call returned
without raising". -/
def isOkE {ε α : Type} : Except ε α → Bool
  | .ok _ => true
  | .error _ => false

/-- One per-condition sub-problem (`FittingProblem` in
`self.fittingProblemList`), viewed through the interface the aggregator
actually uses during `fitAll`: calling `fittingProblem.fitAll(maxNumFit=i+1)`
and then reading `costDict[name]` and `penaltyDict[name]` either raises or
yields the (cost, penalty) pair `fitStep i name`; `numParamsAt i` is the
the `numParametersDict` of the sub-problem as observable after step `i`. -/
structure Cond where
  fitStep : Nat → String → Except String (ℚ × ℚ)
  numParamsAt : Nat → List (String × ℕ)

/-- State of the aggregator: the fields set by
`FittingProblemMultipleCondition.generalSetup` and mutated by `fitAll`.
`stopFittingN = none` models the attribute being absent on the object. -/
structure AggState where
  costDict : List (String × ℚ)
  penaltyDict : List (String × ℚ)
  numParametersDict : List (String × ℕ)
  logLikelihoodDict : List (String × ℚ)
  fitAllDone : Bool
  saveFilename : Option String
  saveKey : Int
  fittingModelNames : List String
  indepParamNames : List String
  cutoff : ℚ
  verbose : Bool
  perfectModel : Option ℕ
  perfectParams : Option (List ℚ)
  stopFittingN : Option ℕ
  deriving DecidableEq

/-- The attributes of the first sub-problem read by `generalSetup` (lines
66-73).  Only `stopFittingN` is modelled as possibly absent (`none`), since
the `hasattr` check the code itself performs in `fitAll` treats exactly that attribute as
optional; the remaining attributes are always set by the engine. -/
structure SubAttrs where
  fittingModelNames : List String
  indepParamNames : List String
  cutoff : ℚ
  verbose : Bool
  perfectModel : Option ℕ
  perfectParams : Option (List ℚ)
  stopFittingN : Option ℕ
  deriving DecidableEq

/-- Model of `FittingProblemMultipleCondition.generalSetup` (lines 55-73): initialise
the empty dictionaries and flags, then read the shared attributes off the
first sub-problem.  Reading `f.stopFittingN` when the attribute is absent
raises `AttributeError` (there is no `hasattr` guard here, unlike in
`fitAll`); an empty sub-problem list makes `self.fittingProblemList[0]`
raise `IndexError`. -/
def generalSetup (fittingProblemList : List SubAttrs) (saveFilename : Option String)
    (saveKey : Int) : Except String AggState :=
  match fittingProblemList with
  | [] => .error "IndexError: list index out of range"
  | f :: _ =>
    match f.stopFittingN with
    | none => .error "AttributeError: stopFittingN"
    | some w =>
      .ok { costDict := [], penaltyDict := [], numParametersDict := [],
            logLikelihoodDict := [], fitAllDone := false,
            saveFilename := saveFilename, saveKey := saveKey,
            fittingModelNames := f.fittingModelNames,
            indepParamNames := f.indepParamNames, cutoff := f.cutoff,
            verbose := f.verbose, perfectModel := f.perfectModel,
            perfectParams := f.perfectParams, stopFittingN := some w }

/-- The inner loop of a sweep step (lines 84-96): for each condition in
order, fit and accumulate cost and penalty into the running totals; a raised
exception propagates immediately and discards the local accumulators. -/
def sweepConditions : List Cond → Nat → String → ℚ → ℚ → Except String (ℚ × ℚ)
  | [], _, _, c, p => .ok (c, p)
  | fp :: rest, i, name, c, p =>
    match fp.fitStep i name with
    | .error e => .error e
    | .ok cp => sweepConditions rest i name (c + cp.1) (p + cp.2)

/-- Per-condition cost of condition `fp` for model `name` at sweep index `i`
(defined only when the fit succeeds; 0 otherwise). -/
def condCost (i : Nat) (name : String) (fp : Cond) : ℚ :=
  match fp.fitStep i name with
  | .ok cp => cp.1
  | .error _ => 0

/-- Per-condition penalty of condition `fp` for model `name` at sweep index
`i` (defined only when the fit succeeds; 0 otherwise). -/
def condPenalty (i : Nat) (name : String) (fp : Cond) : ℚ :=
  match fp.fitStep i name with
  | .ok cp => cp.2
  | .error _ => 0

/-- One sweep step up to and including the dictionary writes (lines 84-102):
run the per-condition fits, and on success record total cost, total penalty,
log-likelihood `-(cost+penalty)`, and the parameter counts of the first
condition.  On a fit error the state is returned unchanged together with the
propagated error; with an empty condition list the dictionary writes happen
and then `self.fittingProblemList[0]` raises `IndexError`. -/
def recordStep (conds : List Cond) (i : Nat) (name : String) (st : AggState) :
    AggState × Option String :=
  match sweepConditions conds i name 0 0 with
  | .error e => (st, some e)
  | .ok cp =>
    let st1 : AggState :=
      { st with costDict := insertA st.costDict name cp.1,
                penaltyDict := insertA st.penaltyDict name cp.2,
                logLikelihoodDict :=
                  insertA st.logLikelihoodDict name (-(cp.1 + cp.2)) }
    match conds with
    | [] => (st1, some "IndexError: list index out of range")
    | c0 :: _ => ({ st1 with numParametersDict := c0.numParamsAt i }, none)

/-- Model of lines 107-108: when the aggregator lacks the attribute
`stopFittingN`, set it to the default 3. -/
def ensureStopN (st : AggState) : AggState :=
  if st.stopFittingN.isSome then st else { st with stopFittingN := some 3 }

/-- Python `max(l)` on a list of floats: `none` on the empty list (where
Python raises), otherwise the left fold of binary `max` over the tail. -/
def pyMax : List ℚ → Option ℚ
  | [] => none
  | x :: xs => some (xs.foldl max x)

/-- Python `l[-W:]`: the last `W` entries, except that `W = 0` yields the
whole list (since `-0 == 0` in Python). -/
def pySliceLast (l : List ℚ) (W : Nat) : List ℚ :=
  if W = 0 then l else l.drop (l.length - W)

/-- Lines 106-111: the log-likelihoods of the candidate model names that
already have a recorded entry, in candidate-list order (`orderedLs`). -/
def orderedLLs (nms : List String) (ll : List (String × ℚ)) : List ℚ :=
  nms.filterMap (fun n => lookupA ll n)

/-- Lines 112-113: the stopping test — more than `W` recorded
log-likelihoods, and the maximum of the last `W` strictly below the
all-time maximum. -/
def stopCheck (nms : List String) (ll : List (String × ℚ)) (W : Nat) : Bool :=
  if W < (orderedLLs nms ll).length then
    match pyMax (pySliceLast (orderedLLs nms ll) W), pyMax (orderedLLs nms ll) with
    | some a, some b => decide (a < b)
    | _, _ => false
  else false

/-- The sweep loop of `fitAll` (lines 81-117), recursing over the remaining
model names with `i` the current `enumerate` index: run a step; on error
return the error with the state as mutated so far; otherwise apply the
`hasattr` default for `stopFittingN`, evaluate the stopping rule, and
either set `fitAllDone` and return or continue.  When the names are
exhausted set `fitAllDone`. -/
def fitAllGo (conds : List Cond) : List String → Nat → AggState → AggState × Option String
  | [], _, st => ({ st with fitAllDone := true }, none)
  | name :: rest, i, st =>
    match recordStep conds i name st with
    | (st1, some e) => (st1, some e)
    | (st1, none) =>
      let st2 := ensureStopN st1
      if stopCheck st2.fittingModelNames st2.logLikelihoodDict (st2.stopFittingN.getD 3) then
        ({ st2 with fitAllDone := true }, none)
      else
        fitAllGo conds rest (i + 1) st2

/-- Model of `FittingProblemMultipleCondition.fitAll` (lines 75-117). -/
def fitAll (conds : List Cond) (st : AggState) : AggState × Option String :=
  fitAllGo conds st.fittingModelNames 0 st

/-- Model of `FittingProblemMultipleCondition.__init__` (lines 45-50): one
sub-problem per condition, pairing each dataset with its
independent-parameter list via `zip` (which stops at the shorter list). -/
def mkFittingProblemList {α β : Type} (fittingDataMultiple : List α)
    (indepParamsListMultiple : List β) : List (α × β) :=
  fittingDataMultiple.zip indepParamsListMultiple

/-- Model of `PowerLawFittingProblemMultipleCondition.__init__` (lines 183-188): the
same `zip` pairing, with the shared complexity list passed to every
sub-problem constructor. -/
def mkPowerLawFittingProblemList {α β γ : Type} (complexityList : γ)
    (fittingDataMultiple : List α) (indepParamsListMultiple : List β) :
    List (γ × α × β) :=
  (fittingDataMultiple.zip indepParamsListMultiple).map
    (fun dp => (complexityList, dp.1, dp.2))

/-- Model of `numStiffSingVals` (line 123-124): raises unconditionally, before
touching any state. -/
def numStiffSingVals (st : AggState) : AggState × Except String Unit :=
  (st, .error "Not implemented")

/-- Model of `_StiffSingVals` (line 126-127): raises unconditionally. -/
def _StiffSingVals (st : AggState) : AggState × Except String Unit :=
  (st, .error "Not implemented")

/-- Model of `_UpdateDicts` (line 129-130): raises unconditionally for every name. -/
def _UpdateDicts (name : String) (st : AggState) : AggState × Except String Unit :=
  (st, .error "Not implemented")

/-- Model of `correlationWithPerfectModel` (line 139-140): raises unconditionally. -/
def correlationWithPerfectModel (st : AggState) : AggState × Except String Unit :=
  (st, .error "Not implemented")

/-- Model of `outOfSampleCorrelation` (line 142-143): raises unconditionally. -/
def outOfSampleCorrelation (st : AggState) : AggState × Except String Unit :=
  (st, .error "Not implemented")

/-- Model of `calculateAllOutOfSampleCorrelation` (line 145-146): raises
unconditionally. -/
def calculateAllOutOfSampleCorrelation (st : AggState) : AggState × Except String Unit :=
  (st, .error "Not implemented")

/-- Model of `_fixOldVersion` (line 164-165): raises unconditionally. -/
def _fixOldVersion (st : AggState) : AggState × Except String Unit :=
  (st, .error "Not implemented")

/-- One sub-problem as seen by `getBestModel`: its `fittingModelDict`
mapping model names to (opaque, here numbered) fitted model objects. -/
structure CondModels where
  fittingModelDict : List (String × ℕ)
  deriving DecidableEq

/-- The list comprehension of line 151:
`[ f.fittingModelDict[modelName] for f in self.fittingProblemList ]`,
raising `KeyError` at the first sub-problem missing the name. -/
def bestModelList : List CondModels → String → Except String (List ℕ)
  | [], _ => .ok []
  | f :: rest, n =>
    match lookupA f.fittingModelDict n with
    | none => .error "KeyError"
    | some m =>
      match bestModelList rest n with
      | .error e => .error e
      | .ok ms => .ok (m :: ms)

/-- Model of `getBestModel` (lines 148-152).  `maxLLName` models the inherited
`self.maxLogLikelihoodName`, an external selection rule consulted only when
`modelName` is `None`, with `maxIndex` passed through to it. -/
def getBestModel (maxLLName : Int → Except String String) (conds : List CondModels)
    (modelName : Option String) (maxIndex : Int) : Except String (List ℕ) :=
  match modelName with
  | some n => bestModelList conds n
  | none =>
    match maxLLName maxIndex with
    | .error e => .error e
    | .ok n => bestModelList conds n

/-! Basic lemmas about the association-list operations. -/

theorem lookupA_insertA_self {α : Type} (l : List (String × α)) (k : String) (v : α) :
    lookupA (insertA l k v) k = some v := by
  induction l with
  | nil => simp [insertA, lookupA]
  | cons hd tl ih =>
    obtain ⟨k0, v0⟩ := hd
    by_cases h : k0 = k
    · simp [insertA, lookupA, h]
    · simp [insertA, lookupA, h, ih]

theorem lookupA_insertA_ne {α : Type} (l : List (String × α)) (k k2 : String) (v : α)
    (hne : k2 ≠ k) : lookupA (insertA l k v) k2 = lookupA l k2 := by
  have hne2 : ¬ k = k2 := fun h => hne h.symm
  induction l with
  | nil => simp [insertA, lookupA, hne2]
  | cons hd tl ih =>
    obtain ⟨k0, v0⟩ := hd
    by_cases h : k0 = k
    · subst h
      have h0 : ¬ k0 = k2 := fun h2 => hne h2.symm
      simp [insertA, lookupA, h0]
    · simp only [insertA, if_neg h]
      by_cases h2 : k0 = k2
      · simp [lookupA, h2]
      · simp [lookupA, h2, ih]

theorem lookupA_eq_none_iff {α : Type} (l : List (String × α)) (k : String) :
    lookupA l k = none ↔ k ∉ l.map Prod.fst := by
  induction l with
  | nil => simp [lookupA]
  | cons hd tl ih =>
    obtain ⟨k0, v0⟩ := hd
    by_cases h : k0 = k
    · simp [lookupA, h]
    · simp [lookupA, h, ih, Ne.symm h]

theorem insertA_of_not_mem {α : Type} (l : List (String × α)) (k : String) (v : α)
    (h : lookupA l k = none) : insertA l k v = l ++ [(k, v)] := by
  induction l with
  | nil => simp [insertA]
  | cons hd tl ih =>
    obtain ⟨k0, v0⟩ := hd
    by_cases hk : k0 = k
    · simp [lookupA, hk] at h
    · simp only [lookupA, if_neg hk] at h
      simp [insertA, hk, ih h]

theorem map_fst_insertA_of_not_mem {α : Type} (l : List (String × α)) (k : String) (v : α)
    (h : lookupA l k = none) :
    (insertA l k v).map Prod.fst = l.map Prod.fst ++ [k] := by
  rw [insertA_of_not_mem l k v h]
  simp

/-! Lemmas about the inner per-condition loop. -/

theorem sweepConditions_ok_of_all_ok (i : Nat) (name : String) :
    ∀ (conds : List Cond) (a b : ℚ),
      (∀ fp ∈ conds, isOkE (fp.fitStep i name) = true) →
      sweepConditions conds i name a b =
        .ok (conds.foldl (fun acc fp => acc + condCost i name fp) a,
             conds.foldl (fun acc fp => acc + condPenalty i name fp) b) := by
  intro conds
  induction conds with
  | nil => intro a b _; simp [sweepConditions]
  | cons fp rest ih =>
    intro a b hall
    have hfp : isOkE (fp.fitStep i name) = true := hall fp (by simp)
    cases hstep : fp.fitStep i name with
    | error e => rw [hstep] at hfp; simp [isOkE] at hfp
    | ok cp =>
      simp only [sweepConditions, hstep]
      rw [ih _ _ (fun g hg => hall g (by simp [hg]))]
      simp [condCost, condPenalty, hstep]

theorem all_ok_of_sweepConditions_ok (i : Nat) (name : String) :
    ∀ (conds : List Cond) (a b : ℚ) (cp : ℚ × ℚ),
      sweepConditions conds i name a b = .ok cp →
      ∀ fp ∈ conds, isOkE (fp.fitStep i name) = true := by
  intro conds
  induction conds with
  | nil => intro a b cp _; simp
  | cons fp rest ih =>
    intro a b cp hok g hg
    cases hstep : fp.fitStep i name with
    | error e => simp [sweepConditions, hstep] at hok
    | ok cp0 =>
      simp only [sweepConditions, hstep] at hok
      rcases List.mem_cons.mp hg with hg | hg
      · subst hg; simp [isOkE, hstep]
      · exact ih _ _ _ hok g hg

/-! Preservation lemmas: which fields each operation leaves untouched. -/

theorem ensureStopN_costDict (st : AggState) : (ensureStopN st).costDict = st.costDict := by
  simp only [ensureStopN]; split <;> rfl

theorem ensureStopN_penaltyDict (st : AggState) :
    (ensureStopN st).penaltyDict = st.penaltyDict := by
  simp only [ensureStopN]; split <;> rfl

theorem ensureStopN_logLikelihoodDict (st : AggState) :
    (ensureStopN st).logLikelihoodDict = st.logLikelihoodDict := by
  simp only [ensureStopN]; split <;> rfl

theorem ensureStopN_fittingModelNames (st : AggState) :
    (ensureStopN st).fittingModelNames = st.fittingModelNames := by
  simp only [ensureStopN]; split <;> rfl

theorem ensureStopN_of_some (st : AggState) (w : ℕ) (h : st.stopFittingN = some w) :
    ensureStopN st = st := by
  simp [ensureStopN, h]

theorem recordStep_fittingModelNames (conds : List Cond) (i : Nat) (name : String)
    (st : AggState) :
    ((recordStep conds i name st).1).fittingModelNames = st.fittingModelNames := by
  simp only [recordStep]
  cases sweepConditions conds i name 0 0 with
  | error e => rfl
  | ok cp => cases conds <;> rfl

theorem recordStep_stopFittingN (conds : List Cond) (i : Nat) (name : String)
    (st : AggState) :
    ((recordStep conds i name st).1).stopFittingN = st.stopFittingN := by
  simp only [recordStep]
  cases sweepConditions conds i name 0 0 with
  | error e => rfl
  | ok cp => cases conds <;> rfl

/-! Lemmas about the stopping rule. -/

theorem length_orderedLLs_le (nms : List String) (ll : List (String × ℚ)) :
    (orderedLLs nms ll).length ≤ nms.length :=
  List.length_filterMap_le _ _

theorem stopCheck_eq_true_iff (nms : List String) (ll : List (String × ℚ)) (W : Nat) :
    stopCheck nms ll W = true ↔
      W < (orderedLLs nms ll).length ∧
      ∃ a b, pyMax (pySliceLast (orderedLLs nms ll) W) = some a ∧
        pyMax (orderedLLs nms ll) = some b ∧ a < b := by
  constructor
  · intro h
    unfold stopCheck at h
    split at h
    · next hlen =>
      split at h
      · next a b ha hb => exact ⟨hlen, a, b, ha, hb, of_decide_eq_true h⟩
      · simp at h
    · simp at h
  · rintro ⟨hlen, a, b, ha, hb, hab⟩
    unfold stopCheck
    rw [if_pos hlen, ha, hb]
    simpa using hab

theorem stopCheck_tie (nms : List String) (ll : List (String × ℚ)) (W : Nat)
    (h : pyMax (pySliceLast (orderedLLs nms ll) W) = pyMax (orderedLLs nms ll)) :
    stopCheck nms ll W = false := by
  unfold stopCheck
  cases h1 : pyMax (pySliceLast (orderedLLs nms ll) W) with
  | none =>
    rw [h1] at h
    rw [← h]
    split <;> rfl
  | some a =>
    rw [h1] at h
    rw [← h]
    split
    · simp
    · rfl

theorem stopCheck_false_of_le (nms : List String) (ll : List (String × ℚ)) (W : Nat)
    (h : nms.length ≤ W) : stopCheck nms ll W = false := by
  unfold stopCheck
  have hn : ¬ W < (orderedLLs nms ll).length :=
    fun hlt => absurd (lt_of_lt_of_le hlt ((length_orderedLLs_le nms ll).trans h))
      (lt_irrefl W)
  rw [if_neg hn]

theorem fitAllGo_stop (conds : List Cond) (name : String) (rest : List String)
    (i : Nat) (st st1 : AggState)
    (hrec : recordStep conds i name st = (st1, none))
    (hstop : stopCheck (ensureStopN st1).fittingModelNames
      (ensureStopN st1).logLikelihoodDict ((ensureStopN st1).stopFittingN.getD 3) = true) :
    fitAllGo conds (name :: rest) i st = ({ ensureStopN st1 with fitAllDone := true }, none) := by
  unfold fitAllGo
  rw [hrec]
  simp [hstop]

theorem fitAllGo_next (conds : List Cond) (name : String) (rest : List String)
    (i : Nat) (st st1 : AggState)
    (hrec : recordStep conds i name st = (st1, none))
    (hstop : stopCheck (ensureStopN st1).fittingModelNames
      (ensureStopN st1).logLikelihoodDict ((ensureStopN st1).stopFittingN.getD 3) = false) :
    fitAllGo conds (name :: rest) i st = fitAllGo conds rest (i + 1) (ensureStopN st1) := by
  conv_lhs => unfold fitAllGo
  rw [hrec]
  simp [hstop]

theorem fitAllGo_error (conds : List Cond) (name : String) (rest : List String)
    (i : Nat) (st : AggState) (e : String)
    (herr : sweepConditions conds i name 0 0 = .error e) :
    fitAllGo conds (name :: rest) i st = (st, some e) := by
  unfold fitAllGo recordStep
  rw [herr]

theorem get?_zip {α β : Type} :
    ∀ (ds : List α) (ps : List β) (i : Nat) (d : α) (p : β),
      ds.get? i = some d → ps.get? i = some p → (ds.zip ps).get? i = some (d, p)
  | [], _, i, _, _, h, _ => by simp at h
  | _ :: _, [], i, _, _, _, h => by simp at h
  | a :: as, b :: bs, 0, d, p, h1, h2 => by
    simp only [List.get?] at h1 h2
    cases h1
    cases h2
    simp [List.zip_cons_cons]
  | a :: as, b :: bs, i + 1, d, p, h1, h2 => by
    simp only [List.get?] at h1 h2
    simpa [List.zip_cons_cons] using get?_zip as bs i d p h1 h2

/-- C4: construction builds one SubProblem per condition by pairing the
i-th dataset with the i-th independent-parameter list; with mismatched
lengths the pairing stops at the shorter sequence, so the number of
SubProblems equals the minimum of the two lengths, with no error raised —
both for the base class and for the power-law specialization. -/
theorem construction_pairs_and_truncates {α β γ : Type} (ds : List α) (ps : List β)
    (cl : γ) :
    (mkFittingProblemList ds ps).length = min ds.length ps.length ∧
    (mkPowerLawFittingProblemList cl ds ps).length = min ds.length ps.length ∧
    ∀ i d p, ds.get? i = some d → ps.get? i = some p →
      (mkFittingProblemList ds ps).get? i = some (d, p) := by
  refine ⟨?_, ?_, ?_⟩
  · simp [mkFittingProblemList]
  · simp [mkPowerLawFittingProblemList]
  · intro i d p h1 h2
    exact get?_zip ds ps i d p h1 h2

/-- C4 witness: three datasets and two parameter lists yield exactly two
paired SubProblems, with the second pairing the second elements. -/
theorem construction_pairs_and_truncates_witness :
    (mkFittingProblemList [10, 20, 30] [1, 2]).length = 2 ∧
    (mkPowerLawFittingProblemList (0 : ℕ) [10, 20, 30] [1, 2]).length = 2 ∧
    (mkFittingProblemList [10, 20, 30] [1, 2]).get? 1 = some (20, 2) := by
  obtain ⟨h1, h2, h3⟩ := construction_pairs_and_truncates [10, 20, 30] [1, 2] (0 : ℕ)
  exact ⟨by simpa using h1, by simpa using h2, h3 1 20 2 rfl rfl⟩

/-- Counterexample input for C5: a first sub-problem on which the attribute
`stopFittingN` is absent. -/
def subNoStopN : SubAttrs := ⟨["m1"], [], 0, false, none, none, none⟩

/-- Witness input for C5: a first sub-problem defining `stopFittingN = 5`. -/
def subWithStopN : SubAttrs := ⟨["m1"], [], 0, false, none, none, some 5⟩

/-- C5 counterexample: when the first sub-problem does not define
`stopFittingN`, `generalSetup` does not succeed with a stopping window of
3 — the plain attribute read on line 73 raises `AttributeError`. -/
theorem generalSetup_missing_stopFittingN_raises :
    generalSetup [subNoStopN] none (-1) = .error "AttributeError: stopFittingN" := rfl

/-- C5 (amended): at shared setup time the aggregator copies the stopping
window from the first sub-problem; if the first sub-problem does not define
the attribute, setup fails with an attribute error rather than defaulting.
The default of 3 is applied inside `fitAll` when the aggregator itself
lacks the attribute. -/
theorem generalSetup_stopFittingN (f : SubAttrs) (rest : List SubAttrs)
    (sf : Option String) (sk : Int) (st : AggState) :
    (f.stopFittingN = none →
      generalSetup (f :: rest) sf sk = .error "AttributeError: stopFittingN") ∧
    (∀ w, f.stopFittingN = some w →
      ∃ a, generalSetup (f :: rest) sf sk = .ok a ∧ a.stopFittingN = some w ∧
        a.fittingModelNames = f.fittingModelNames) ∧
    (st.stopFittingN = none → ensureStopN st = { st with stopFittingN := some 3 }) := by
  refine ⟨?_, ?_, ?_⟩
  · intro h
    simp [generalSetup, h]
  · intro w h
    refine ⟨{ costDict := [], penaltyDict := [], numParametersDict := [],
              logLikelihoodDict := [], fitAllDone := false, saveFilename := sf,
              saveKey := sk, fittingModelNames := f.fittingModelNames,
              indepParamNames := f.indepParamNames, cutoff := f.cutoff,
              verbose := f.verbose, perfectModel := f.perfectModel,
              perfectParams := f.perfectParams, stopFittingN := some w }, ?_, rfl, rfl⟩
    simp [generalSetup, h]
  · intro h
    simp [ensureStopN, h]

/-- C5 witness: setup fails on a first sub-problem lacking the attribute
and succeeds on one defining it. -/
theorem generalSetup_stopFittingN_witness :
    generalSetup [subNoStopN] none (-1) = .error "AttributeError: stopFittingN" ∧
    isOkE (generalSetup [subWithStopN] none (-1)) = true := by
  obtain ⟨h1, h2, -⟩ := generalSetup_stopFittingN subNoStopN [] none (-1)
    ⟨[], [], [], [], false, none, -1, [], [], 0, false, none, none, none⟩
  obtain ⟨a, ha, -, -⟩ := (generalSetup_stopFittingN subWithStopN [] none (-1)
    ⟨[], [], [], [], false, none, -1, [], [], 0, false, none, none, none⟩).2.1 5 rfl
  refine ⟨h1 rfl, ?_⟩
  rw [ha]
  rfl

/-- C7: every unsupported operation on the base aggregator — stiff
singular-value counting and computation, internal dict update by name, out
of sample correlation (single and batch), correlation with ground truth,
and legacy-format migration — raises a "Not implemented" error immediately
for every argument and every aggregator state, and leaves the state
unchanged. -/
theorem unsupported_ops_raise_and_preserve_state (st : AggState) (name : String) :
    numStiffSingVals st = (st, .error "Not implemented") ∧
    _StiffSingVals st = (st, .error "Not implemented") ∧
    _UpdateDicts name st = (st, .error "Not implemented") ∧
    correlationWithPerfectModel st = (st, .error "Not implemented") ∧
    outOfSampleCorrelation st = (st, .error "Not implemented") ∧
    calculateAllOutOfSampleCorrelation st = (st, .error "Not implemented") ∧
    _fixOldVersion st = (st, .error "Not implemented") :=
  ⟨rfl, rfl, rfl, rfl, rfl, rfl, rfl⟩

/-- C10: getBestModel called with an explicit model name returns the same
result for any two maxIndex values and any two best-name selection rules —
the selection rule is never consulted. -/
theorem getBestModel_explicit_ignores_maxIndex (g1 g2 : Int → Except String String)
    (conds : List CondModels) (n : String) (mi1 mi2 : Int) :
    getBestModel g1 conds (some n) mi1 = getBestModel g2 conds (some n) mi2 := rfl

theorem lookupA_insertA_isSome {α : Type} (l : List (String × α)) (k n : String) (v : α)
    (h : (lookupA l n).isSome = true) : (lookupA (insertA l k v) n).isSome = true := by
  by_cases hk : n = k
  · subst hk
    rw [lookupA_insertA_self]
    rfl
  · rw [lookupA_insertA_ne l k n v hk]
    exact h

theorem recordStep_eq_of_ok (c0 : Cond) (cs : List Cond) (i : Nat) (name : String)
    (st : AggState) (cp : ℚ × ℚ)
    (h : sweepConditions (c0 :: cs) i name 0 0 = .ok cp) :
    recordStep (c0 :: cs) i name st =
      ({ st with costDict := insertA st.costDict name cp.1,
                 penaltyDict := insertA st.penaltyDict name cp.2,
                 logLikelihoodDict := insertA st.logLikelihoodDict name (-(cp.1 + cp.2)),
                 numParametersDict := c0.numParamsAt i }, none) := by
  unfold recordStep
  rw [h]

/-- C2: for any number of conditions N ≥ 1, when a sweep step records a
model name, the aggregate cost stored for that name is the left-to-right
sum of the per-condition costs in condition order, the aggregate penalty is
the corresponding sum of per-condition penalties, and the aggregate
log-likelihood is exactly the negation of (aggregate cost + aggregate
penalty). -/
theorem recordStep_aggregates (conds : List Cond) (i : Nat) (name : String)
    (st : AggState) (hN : conds ≠ [])
    (hok : ∀ fp ∈ conds, isOkE (fp.fitStep i name) = true) :
    ∃ st1, recordStep conds i name st = (st1, none) ∧
      lookupA st1.costDict name =
        some ((conds.map (condCost i name)).foldl (fun a b => a + b) 0) ∧
      lookupA st1.penaltyDict name =
        some ((conds.map (condPenalty i name)).foldl (fun a b => a + b) 0) ∧
      lookupA st1.logLikelihoodDict name =
        some (-((conds.map (condCost i name)).foldl (fun a b => a + b) 0 +
          (conds.map (condPenalty i name)).foldl (fun a b => a + b) 0)) := by
  have hsw := sweepConditions_ok_of_all_ok i name conds 0 0 hok
  obtain ⟨c0, cs, rfl⟩ : ∃ c0 cs, conds = c0 :: cs := by
    cases conds with
    | nil => exact absurd rfl hN
    | cons c0 cs => exact ⟨c0, cs, rfl⟩
  rw [recordStep_eq_of_ok c0 cs i name st _ hsw]
  refine ⟨_, rfl, ?_, ?_, ?_⟩ <;>
    simp [lookupA_insertA_self, List.foldl_map]

/-- Conditions used by concrete witnesses: two conditions with constant
successful fits. -/
def witConds : List Cond :=
  [⟨fun _ _ => .ok (1, 2), fun _ => []⟩, ⟨fun _ _ => .ok (3, 4), fun _ => []⟩]

/-- Fresh aggregator state used by concrete witnesses. -/
def witState : AggState :=
  ⟨[], [], [], [], false, none, -1, ["m1", "m2"], [], 0, false, none, none, some 3⟩

/-- C2 witness: at a concrete two-condition step the recorded aggregates
are the condition-order sums. -/
theorem recordStep_aggregates_witness :
    lookupA ((recordStep witConds 0 "m1" witState).1).costDict "m1" =
      some ((witConds.map (condCost 0 "m1")).foldl (fun a b => a + b) 0) ∧
    lookupA ((recordStep witConds 0 "m1" witState).1).logLikelihoodDict "m1" =
      some (-((witConds.map (condCost 0 "m1")).foldl (fun a b => a + b) 0 +
        (witConds.map (condPenalty 0 "m1")).foldl (fun a b => a + b) 0)) ∧
    (recordStep witConds 0 "m1" witState).2 = none := by
  obtain ⟨st1, heq, hc, hp, hl⟩ := recordStep_aggregates witConds 0 "m1" witState
    (by simp [witConds]) (by simp [witConds, isOkE])
  rw [heq]
  exact ⟨hc, hl, rfl⟩

/-- C1: after a step records its aggregate log-likelihood, the stopping
check fires exactly when the number of candidate names with a recorded
log-likelihood strictly exceeds the window `W` and the maximum over the
last `W` recorded entries is strictly below the maximum over all recorded
entries; a tie never triggers it; and when it fires, the sweep-complete
flag is set and the loop returns immediately with the post-step state, so
no later model name is fit. -/
theorem fitAll_stopping_rule (nms : List String) (ll : List (String × ℚ)) (W : Nat)
    (conds : List Cond) (name : String) (rest : List String) (i : Nat)
    (st st1 : AggState) :
    (stopCheck nms ll W = true ↔
      W < (orderedLLs nms ll).length ∧
      ∃ a b, pyMax (pySliceLast (orderedLLs nms ll) W) = some a ∧
        pyMax (orderedLLs nms ll) = some b ∧ a < b) ∧
    (pyMax (pySliceLast (orderedLLs nms ll) W) = pyMax (orderedLLs nms ll) →
      stopCheck nms ll W = false) ∧
    (recordStep conds i name st = (st1, none) →
      stopCheck (ensureStopN st1).fittingModelNames (ensureStopN st1).logLikelihoodDict
        ((ensureStopN st1).stopFittingN.getD 3) = true →
      fitAllGo conds (name :: rest) i st =
        ({ ensureStopN st1 with fitAllDone := true }, none)) :=
  ⟨stopCheck_eq_true_iff nms ll W, stopCheck_tie nms ll W,
   fun h1 h2 => fitAllGo_stop conds name rest i st st1 h1 h2⟩

/-- Condition used by the C1 witness: log-likelihood drops from -1 at model
m1 to -2 at model m2. -/
def witCondStop : Cond :=
  ⟨fun _ name => if name = "m1" then .ok (1, 0) else .ok (2, 0), fun _ => []⟩

/-- Aggregator state just before the second sweep step, window size 1. -/
def witStStop : AggState :=
  ⟨[("m1", 1)], [("m1", 0)], [], [("m1", -1)], false, none, -1, ["m1", "m2"], [],
   0, false, none, none, some 1⟩

/-- Aggregator state right after the second sweep step records m2. -/
def witStStop1 : AggState :=
  ⟨[("m1", 1), ("m2", 2)], [("m1", 0), ("m2", 0)], [], [("m1", -1), ("m2", -2)],
   false, none, -1, ["m1", "m2"], [], 0, false, none, none, some 1⟩

/-- C1 witness: with window 1 and log-likelihoods -1, -2, the check fires
at the second step and the loop returns immediately with the flag set. -/
theorem fitAll_stopping_rule_witness :
    fitAllGo [witCondStop] ["m2"] 1 witStStop =
      ({ witStStop1 with fitAllDone := true }, none) := by
  have hrec : recordStep [witCondStop] 1 "m2" witStStop = (witStStop1, none) := by
    simp [recordStep, sweepConditions, witCondStop, witStStop, witStStop1, insertA]
  have hstop : stopCheck (ensureStopN witStStop1).fittingModelNames
      (ensureStopN witStStop1).logLikelihoodDict
      ((ensureStopN witStStop1).stopFittingN.getD 3) = true := by
    simp [stopCheck, orderedLLs, lookupA, pyMax, pySliceLast, ensureStopN, witStStop1]
  have h := (fitAll_stopping_rule [] [] 0 [witCondStop] "m2" [] 1 witStStop
    witStStop1).2.2 hrec hstop
  rw [ensureStopN_of_some witStStop1 1 rfl] at h
  exact h

theorem stop_getD (st : AggState) (W : ℕ) (h : st.stopFittingN = some W) :
    st.stopFittingN.getD 3 = W := by
  rw [h]
  rfl

/-- Successful-step state: the aggregator after the dictionary writes of a
sweep step whose per-condition fits all succeed (used only in proofs; it is
definitionally the success case of `recordStep`). -/
def stepState (c0 : Cond) (cs : List Cond) (i : Nat) (name : String) (st : AggState) : AggState :=
  { st with costDict := insertA st.costDict name ((c0 :: cs).foldl (fun acc fp => acc + condCost i name fp) 0), penaltyDict := insertA st.penaltyDict name ((c0 :: cs).foldl (fun acc fp => acc + condPenalty i name fp) 0), logLikelihoodDict := insertA st.logLikelihoodDict name (-((c0 :: cs).foldl (fun acc fp => acc + condCost i name fp) 0 + (c0 :: cs).foldl (fun acc fp => acc + condPenalty i name fp) 0)), numParametersDict := c0.numParamsAt i }

theorem fitAllGo_complete (c0 : Cond) (cs : List Cond) (W : ℕ)
    (hok : ∀ fp ∈ c0 :: cs, ∀ i n, isOkE (fp.fitStep i n) = true) :
    ∀ (rest : List String) (i : Nat) (st : AggState),
      st.stopFittingN = some W → st.fittingModelNames.length ≤ W →
      ∃ stF, fitAllGo (c0 :: cs) rest i st = (stF, none) ∧ stF.fitAllDone = true ∧
        stF.fittingModelNames = st.fittingModelNames ∧ stF.stopFittingN = some W ∧
        (∀ n, (lookupA st.costDict n).isSome = true →
          (lookupA stF.costDict n).isSome = true) ∧
        (∀ n, (lookupA st.penaltyDict n).isSome = true →
          (lookupA stF.penaltyDict n).isSome = true) ∧
        (∀ n, (lookupA st.logLikelihoodDict n).isSome = true →
          (lookupA stF.logLikelihoodDict n).isSome = true) ∧
        (∀ n ∈ rest, (lookupA stF.costDict n).isSome = true ∧
          (lookupA stF.penaltyDict n).isSome = true ∧
          (lookupA stF.logLikelihoodDict n).isSome = true) := by
  intro rest
  induction rest with
  | nil =>
    intro i st hsw hlen
    refine ⟨{ st with fitAllDone := true }, by simp [fitAllGo], rfl, rfl, hsw,
      fun n h => h, fun n h => h, fun n h => h, by simp⟩
  | cons name rest2 ih =>
    intro i st hsw hlen
    have hswc := sweepConditions_ok_of_all_ok i name (c0 :: cs) 0 0
      (fun fp hfp => hok fp hfp i name)
    have hrec : recordStep (c0 :: cs) i name st = (stepState c0 cs i name st, none) :=
      recordStep_eq_of_ok c0 cs i name st _ hswc
    obtain ⟨stF, h1, h2, h3, h4, h5, h6, h7, h8⟩ :=
      ih (i + 1) (stepState c0 cs i name st) hsw hlen
    have hens : ensureStopN (stepState c0 cs i name st) = stepState c0 cs i name st :=
      ensureStopN_of_some _ W hsw
    have heq := fitAllGo_next (c0 :: cs) name rest2 i st _ hrec (by
      rw [hens, stop_getD (stepState c0 cs i name st) W hsw]
      exact stopCheck_false_of_le _ _ W hlen)
    rw [hens] at heq
    have hcost : (lookupA (stepState c0 cs i name st).costDict name).isSome = true := by
      simp only [stepState]
      rw [lookupA_insertA_self]
      rfl
    have hpen : (lookupA (stepState c0 cs i name st).penaltyDict name).isSome = true := by
      simp only [stepState]
      rw [lookupA_insertA_self]
      rfl
    have hll : (lookupA (stepState c0 cs i name st).logLikelihoodDict name).isSome = true := by
      simp only [stepState]
      rw [lookupA_insertA_self]
      rfl
    refine ⟨stF, heq.trans h1, h2, h3, h4,
      fun n h => h5 n (lookupA_insertA_isSome _ _ _ _ h),
      fun n h => h6 n (lookupA_insertA_isSome _ _ _ _ h),
      fun n h => h7 n (lookupA_insertA_isSome _ _ _ _ h), ?_⟩
    intro n hn
    rcases List.mem_cons.mp hn with rfl | hn2
    · exact ⟨h5 n hcost, h6 n hpen, h7 n hll⟩
    · exact h8 n hn2

/-- C6: whenever the candidate model list is no longer than the stopping
window, the stopping rule never fires, and (with every per-condition fit
succeeding) fitAll iterates over every candidate model name, records
aggregates for all of them, and sets the sweep-complete flag at the end. -/
theorem fitAll_short_list_completes (conds : List Cond) (st : AggState) (W : ℕ)
    (hconds : conds ≠ [])
    (hok : ∀ fp ∈ conds, ∀ i n, isOkE (fp.fitStep i n) = true)
    (hsw : st.stopFittingN = some W)
    (hlen : st.fittingModelNames.length ≤ W) :
    (∀ ll, stopCheck st.fittingModelNames ll W = false) ∧
    ∃ stF, fitAll conds st = (stF, none) ∧ stF.fitAllDone = true ∧
      ∀ n ∈ st.fittingModelNames,
        (lookupA stF.costDict n).isSome = true ∧
        (lookupA stF.penaltyDict n).isSome = true ∧
        (lookupA stF.logLikelihoodDict n).isSome = true := by
  obtain ⟨c0, cs, rfl⟩ : ∃ c0 cs, conds = c0 :: cs := by
    cases conds with
    | nil => exact absurd rfl hconds
    | cons c0 cs => exact ⟨c0, cs, rfl⟩
  refine ⟨fun ll => stopCheck_false_of_le _ ll W hlen, ?_⟩
  obtain ⟨stF, h1, h2, -, -, -, -, -, h8⟩ :=
    fitAllGo_complete c0 cs W hok st.fittingModelNames 0 st hsw hlen
  exact ⟨stF, h1, h2, h8⟩

/-- C6 witness: with two candidate names, window 3 and always-succeeding
fits, the sweep finishes with no error and the flag set. -/
theorem fitAll_short_list_completes_witness :
    (fitAll witConds witState).2 = none ∧
    (fitAll witConds witState).1.fitAllDone = true := by
  obtain ⟨-, stF, heq, hdone, -⟩ := fitAll_short_list_completes witConds witState 3
    (by simp [witConds]) (by simp [witConds, isOkE]) rfl (by simp [witState])
  rw [heq]
  exact ⟨rfl, hdone⟩

/-- Successful-step state with explicit totals `C`, `P` (used only in
proofs; definitionally the success case of `recordStep` when the inner loop
returns `(C, P)`). -/
def stepStateCP (c0 : Cond) (i : Nat) (name : String) (C P : ℚ) (st : AggState) : AggState :=
  { st with costDict := insertA st.costDict name C, penaltyDict := insertA st.penaltyDict name P, logLikelihoodDict := insertA st.logLikelihoodDict name (-(C + P)), numParametersDict := c0.numParamsAt i }

theorem stepStateCP_costDict (c0 : Cond) (i : Nat) (name : String) (C P : ℚ)
    (st : AggState) :
    (stepStateCP c0 i name C P st).costDict = insertA st.costDict name C := rfl

theorem stepStateCP_penaltyDict (c0 : Cond) (i : Nat) (name : String) (C P : ℚ)
    (st : AggState) :
    (stepStateCP c0 i name C P st).penaltyDict = insertA st.penaltyDict name P := rfl

theorem stepStateCP_logLikelihoodDict (c0 : Cond) (i : Nat) (name : String) (C P : ℚ)
    (st : AggState) :
    (stepStateCP c0 i name C P st).logLikelihoodDict =
      insertA st.logLikelihoodDict name (-(C + P)) := rfl

theorem fitAllGo_firstK (c0 : Cond) (cs : List Cond) :
    ∀ (rest : List String) (i : Nat) (st : AggState),
      (∀ n ∈ rest, lookupA st.costDict n = none ∧ lookupA st.penaltyDict n = none ∧
        lookupA st.logLikelihoodDict n = none) →
      rest.Nodup →
      ∃ k, k ≤ rest.length ∧
        (fitAllGo (c0 :: cs) rest i st).1.costDict.map Prod.fst =
          st.costDict.map Prod.fst ++ rest.take k ∧
        (fitAllGo (c0 :: cs) rest i st).1.penaltyDict.map Prod.fst =
          st.penaltyDict.map Prod.fst ++ rest.take k ∧
        (fitAllGo (c0 :: cs) rest i st).1.logLikelihoodDict.map Prod.fst =
          st.logLikelihoodDict.map Prod.fst ++ rest.take k ∧
        (∀ j, j < k → ∃ name c p, rest.get? j = some name ∧
          sweepConditions (c0 :: cs) (i + j) name 0 0 = .ok (c, p) ∧
          lookupA (fitAllGo (c0 :: cs) rest i st).1.costDict name = some c ∧
          lookupA (fitAllGo (c0 :: cs) rest i st).1.penaltyDict name = some p ∧
          lookupA (fitAllGo (c0 :: cs) rest i st).1.logLikelihoodDict name =
            some (-(c + p))) ∧
        (∀ n, n ∉ rest →
          lookupA (fitAllGo (c0 :: cs) rest i st).1.costDict n =
            lookupA st.costDict n ∧
          lookupA (fitAllGo (c0 :: cs) rest i st).1.penaltyDict n =
            lookupA st.penaltyDict n ∧
          lookupA (fitAllGo (c0 :: cs) rest i st).1.logLikelihoodDict n =
            lookupA st.logLikelihoodDict n) := by
  intro rest
  induction rest with
  | nil =>
    intro i st hfresh hnd
    refine ⟨0, Nat.zero_le _, ?_, ?_, ?_, ?_, ?_⟩ <;> simp [fitAllGo]
  | cons name rest2 ih =>
    intro i st hfresh hnd
    obtain ⟨hfc, hfp2, hfl⟩ := hfresh name (List.mem_cons_self name rest2)
    obtain ⟨hnotin, hnd2⟩ := List.nodup_cons.mp hnd
    cases hsw : sweepConditions (c0 :: cs) i name 0 0 with
    | error e =>
      have heq := fitAllGo_error (c0 :: cs) name rest2 i st e hsw
      refine ⟨0, Nat.zero_le _, ?_, ?_, ?_, ?_, ?_⟩ <;> simp [heq]
    | ok cp =>
      obtain ⟨C, P⟩ := cp
      have hrec : recordStep (c0 :: cs) i name st = (stepStateCP c0 i name C P st, none) :=
        recordStep_eq_of_ok c0 cs i name st (C, P) hsw
      have hens_c : (ensureStopN (stepStateCP c0 i name C P st)).costDict =
          insertA st.costDict name C :=
        (ensureStopN_costDict _).trans (stepStateCP_costDict c0 i name C P st)
      have hens_p : (ensureStopN (stepStateCP c0 i name C P st)).penaltyDict =
          insertA st.penaltyDict name P :=
        (ensureStopN_penaltyDict _).trans (stepStateCP_penaltyDict c0 i name C P st)
      have hens_l : (ensureStopN (stepStateCP c0 i name C P st)).logLikelihoodDict =
          insertA st.logLikelihoodDict name (-(C + P)) :=
        (ensureStopN_logLikelihoodDict _).trans (stepStateCP_logLikelihoodDict c0 i name C P st)
      cases hstop : stopCheck (ensureStopN (stepStateCP c0 i name C P st)).fittingModelNames
          (ensureStopN (stepStateCP c0 i name C P st)).logLikelihoodDict
          ((ensureStopN (stepStateCP c0 i name C P st)).stopFittingN.getD 3) with
      | true =>
        have heq := fitAllGo_stop (c0 :: cs) name rest2 i st _ hrec hstop
        refine ⟨1, by simp, ?_, ?_, ?_, ?_, ?_⟩
        · rw [heq]
          simp only [List.take_succ_cons, List.take_zero]
          simpa [hens_c] using map_fst_insertA_of_not_mem st.costDict name C hfc
        · rw [heq]
          simp only [List.take_succ_cons, List.take_zero]
          simpa [hens_p] using map_fst_insertA_of_not_mem st.penaltyDict name P hfp2
        · rw [heq]
          simp only [List.take_succ_cons, List.take_zero]
          simpa [hens_l] using map_fst_insertA_of_not_mem st.logLikelihoodDict name (-(C + P)) hfl
        · intro j hj
          have hj0 : j = 0 := by omega
          subst hj0
          refine ⟨name, C, P, rfl, ?_, ?_, ?_, ?_⟩
          · simpa using hsw
          · rw [heq]
            simpa [hens_c] using lookupA_insertA_self st.costDict name C
          · rw [heq]
            simpa [hens_p] using lookupA_insertA_self st.penaltyDict name P
          · rw [heq]
            simpa [hens_l] using lookupA_insertA_self st.logLikelihoodDict name (-(C + P))
        · intro n hn
          have hne : n ≠ name := fun h => hn (h ▸ List.mem_cons_self name rest2)
          refine ⟨?_, ?_, ?_⟩
          · rw [heq]
            simpa [hens_c] using lookupA_insertA_ne st.costDict name n C hne
          · rw [heq]
            simpa [hens_p] using lookupA_insertA_ne st.penaltyDict name n P hne
          · rw [heq]
            simpa [hens_l] using lookupA_insertA_ne st.logLikelihoodDict name n (-(C + P)) hne
      | false =>
        have heq := fitAllGo_next (c0 :: cs) name rest2 i st _ hrec hstop
        have hfresh2 : ∀ n ∈ rest2,
            lookupA (ensureStopN (stepStateCP c0 i name C P st)).costDict n = none ∧
            lookupA (ensureStopN (stepStateCP c0 i name C P st)).penaltyDict n = none ∧
            lookupA (ensureStopN (stepStateCP c0 i name C P st)).logLikelihoodDict n = none := by
          intro n hn
          have hne : n ≠ name := fun h => hnotin (h ▸ hn)
          obtain ⟨h1, h2, h3⟩ := hfresh n (List.mem_cons_of_mem name hn)
          rw [hens_c, hens_p, hens_l]
          rw [lookupA_insertA_ne st.costDict name n C hne,
            lookupA_insertA_ne st.penaltyDict name n P hne,
            lookupA_insertA_ne st.logLikelihoodDict name n (-(C + P)) hne]
          exact ⟨h1, h2, h3⟩
        obtain ⟨k2, hk2, hm1, hm2, hm3, hstep, hpres⟩ :=
          ih (i + 1) (ensureStopN (stepStateCP c0 i name C P st)) hfresh2 hnd2
        refine ⟨k2 + 1, by simpa using hk2, ?_, ?_, ?_, ?_, ?_⟩
        · rw [heq, hm1, hens_c, map_fst_insertA_of_not_mem st.costDict name C hfc]
          simp [List.take_succ_cons]
        · rw [heq, hm2, hens_p, map_fst_insertA_of_not_mem st.penaltyDict name P hfp2]
          simp [List.take_succ_cons]
        · rw [heq, hm3, hens_l,
            map_fst_insertA_of_not_mem st.logLikelihoodDict name (-(C + P)) hfl]
          simp [List.take_succ_cons]
        · intro j hj
          cases j with
          | zero =>
            obtain ⟨hp1, hp2, hp3⟩ := hpres name hnotin
            refine ⟨name, C, P, rfl, ?_, ?_, ?_, ?_⟩
            · simpa using hsw
            · rw [heq, hp1]
              simpa [hens_c] using lookupA_insertA_self st.costDict name C
            · rw [heq, hp2]
              simpa [hens_p] using lookupA_insertA_self st.penaltyDict name P
            · rw [heq, hp3]
              simpa [hens_l] using lookupA_insertA_self st.logLikelihoodDict name (-(C + P))
          | succ j2 =>
            have hj2 : j2 < k2 := by omega
            obtain ⟨name2, c, p, hget, hsweep, h1, h2, h3⟩ := hstep j2 hj2
            have hidx : i + 1 + j2 = i + (j2 + 1) := by omega
            rw [hidx] at hsweep
            refine ⟨name2, c, p, by simpa using hget, hsweep, ?_, ?_, ?_⟩
            · rw [heq]
              exact h1
            · rw [heq]
              exact h2
            · rw [heq]
              exact h3
        · intro n hn
          have hne : n ≠ name := fun h => hn (h ▸ List.mem_cons_self name rest2)
          have hn2 : n ∉ rest2 := fun h => hn (List.mem_cons_of_mem name h)
          obtain ⟨hp1, hp2, hp3⟩ := hpres n hn2
          rw [hens_c] at hp1
          rw [hens_p] at hp2
          rw [hens_l] at hp3
          refine ⟨?_, ?_, ?_⟩
          · rw [heq, hp1]
            exact lookupA_insertA_ne st.costDict name n C hne
          · rw [heq, hp2]
            exact lookupA_insertA_ne st.penaltyDict name n P hne
          · rw [heq, hp3]
            exact lookupA_insertA_ne st.logLikelihoodDict name n (-(C + P)) hne

theorem mem_of_lookupA_isSome {α : Type} (l : List (String × α)) (n : String)
    (h : (lookupA l n).isSome = true) : n ∈ l.map Prod.fst := by
  by_contra hmem
  rw [← lookupA_eq_none_iff] at hmem
  rw [hmem] at h
  simp at h

theorem exists_get?_of_mem_take (l : List String) (k : Nat) (n : String)
    (h : n ∈ l.take k) : ∃ j, j < k ∧ l.get? j = some n := by
  obtain ⟨j, hj⟩ := List.mem_iff_get?.mp h
  have hjlen : j < (l.take k).length := (List.get?_eq_some.mp hj).1
  have hjk : j < k := lt_of_lt_of_le hjlen (List.length_take_le k l)
  refine ⟨j, hjk, ?_⟩
  rw [← List.get?_take hjk]
  exact hj

/-- C9: starting from a fresh aggregator with distinct candidate names and
at least one condition, after any run of fitAll the cost, penalty and
log-likelihood mappings hold entries for exactly the first k candidate
names in sweep order, for some k (in particular a step at which the
stopping rule fires has its own name recorded before the early return),
and each recorded name keeps exactly the values computed at its own sweep
step — no entry is removed or overwritten by a later step. -/
theorem fitAll_records_exact_firstK (conds : List Cond) (st : AggState)
    (hconds : conds ≠ []) (hnodup : st.fittingModelNames.Nodup)
    (hc : st.costDict = []) (hp : st.penaltyDict = []) (hl : st.logLikelihoodDict = []) :
    ∃ k, k ≤ st.fittingModelNames.length ∧
      (fitAll conds st).1.costDict.map Prod.fst = st.fittingModelNames.take k ∧
      (fitAll conds st).1.penaltyDict.map Prod.fst = st.fittingModelNames.take k ∧
      (fitAll conds st).1.logLikelihoodDict.map Prod.fst = st.fittingModelNames.take k ∧
      ∀ j, j < k → ∃ name c p, st.fittingModelNames.get? j = some name ∧
        sweepConditions conds j name 0 0 = .ok (c, p) ∧
        lookupA (fitAll conds st).1.costDict name = some c ∧
        lookupA (fitAll conds st).1.penaltyDict name = some p ∧
        lookupA (fitAll conds st).1.logLikelihoodDict name = some (-(c + p)) := by
  obtain ⟨c0, cs, rfl⟩ : ∃ c0 cs, conds = c0 :: cs := by
    cases conds with
    | nil => exact absurd rfl hconds
    | cons c0 cs => exact ⟨c0, cs, rfl⟩
  obtain ⟨k, hk, h1, h2, h3, h4, -⟩ := fitAllGo_firstK c0 cs st.fittingModelNames 0 st
    (by
      intro n hn
      rw [hc, hp, hl]
      exact ⟨rfl, rfl, rfl⟩) hnodup
  refine ⟨k, hk, ?_, ?_, ?_, ?_⟩
  · rw [show fitAll (c0 :: cs) st = fitAllGo (c0 :: cs) st.fittingModelNames 0 st from rfl,
      h1, hc]
    simp
  · rw [show fitAll (c0 :: cs) st = fitAllGo (c0 :: cs) st.fittingModelNames 0 st from rfl,
      h2, hp]
    simp
  · rw [show fitAll (c0 :: cs) st = fitAllGo (c0 :: cs) st.fittingModelNames 0 st from rfl,
      h3, hl]
    simp
  · intro j hj
    obtain ⟨name, c, p, hget, hsweep, ha, hb, hcc⟩ := h4 j hj
    exact ⟨name, c, p, hget, by simpa using hsweep, ha, hb, hcc⟩

/-- Condition used by witnesses of full runs: a single condition whose fits
always succeed with cost 1 and penalty 1. -/
def witCondOne : Cond := ⟨fun _ _ => .ok (1, 1), fun _ => []⟩

/-- C9 witness: on a concrete complete run the recorded keys are exactly
the first two candidate names in sweep order. -/
theorem fitAll_records_exact_firstK_witness :
    (fitAll [witCondOne] witState).1.costDict.map Prod.fst =
      witState.fittingModelNames.take 2 ∧
    (fitAll [witCondOne] witState).1.logLikelihoodDict.map Prod.fst =
      witState.fittingModelNames.take 2 := by
  have h := fitAll_records_exact_firstK [witCondOne] witState (by simp)
    (by simp [witState]) rfl rfl rfl
  constructor <;>
    simp [fitAll, fitAllGo, recordStep, sweepConditions, witCondOne, witState, insertA,
      lookupA, ensureStopN, stopCheck, orderedLLs, pyMax, pySliceLast]

/-- Condition used as C3 witness: its fit always raises. -/
def witCondFail : Cond := ⟨fun _ _ => .error "boom", fun _ => []⟩

/-- C3: a per-condition fit error during a sweep step propagates out of
fitAll and aborts the step with the aggregator state unchanged, so no
partial aggregate is recorded for that step; and, from a fresh state, the
cost, penalty and log-likelihood mappings contain an entry for a model name
only if every per-condition fit for that name succeeded. -/
theorem fit_error_aborts_step (conds : List Cond) (st : AggState)
    (hconds : conds ≠ []) (hnodup : st.fittingModelNames.Nodup)
    (hc : st.costDict = []) (hp : st.penaltyDict = []) (hl : st.logLikelihoodDict = []) :
    (∀ i name rest st2 e, sweepConditions conds i name 0 0 = .error e →
      fitAllGo conds (name :: rest) i st2 = (st2, some e)) ∧
    (∀ name, ((lookupA (fitAll conds st).1.costDict name).isSome = true ∨
        (lookupA (fitAll conds st).1.penaltyDict name).isSome = true ∨
        (lookupA (fitAll conds st).1.logLikelihoodDict name).isSome = true) →
      ∃ i, ∀ fp ∈ conds, isOkE (fp.fitStep i name) = true) := by
  obtain ⟨c0, cs, rfl⟩ : ∃ c0 cs, conds = c0 :: cs := by
    cases conds with
    | nil => exact absurd rfl hconds
    | cons c0 cs => exact ⟨c0, cs, rfl⟩
  obtain ⟨k, hk, h1, h2, h3, h4, -⟩ := fitAllGo_firstK c0 cs st.fittingModelNames 0 st
    (by
      intro n hn
      rw [hc, hp, hl]
      exact ⟨rfl, rfl, rfl⟩) hnodup
  constructor
  · intro i name rest st2 e he
    exact fitAllGo_error (c0 :: cs) name rest i st2 e he
  · intro name hsome
    have hmem : name ∈ st.fittingModelNames.take k := by
      rcases hsome with h | h | h
      · have hm := mem_of_lookupA_isSome _ name h
        rw [show (fitAll (c0 :: cs) st).1.costDict =
            (fitAllGo (c0 :: cs) st.fittingModelNames 0 st).1.costDict from rfl] at hm
        rw [h1, hc] at hm
        simpa using hm
      · have hm := mem_of_lookupA_isSome _ name h
        rw [show (fitAll (c0 :: cs) st).1.penaltyDict =
            (fitAllGo (c0 :: cs) st.fittingModelNames 0 st).1.penaltyDict from rfl] at hm
        rw [h2, hp] at hm
        simpa using hm
      · have hm := mem_of_lookupA_isSome _ name h
        rw [show (fitAll (c0 :: cs) st).1.logLikelihoodDict =
            (fitAllGo (c0 :: cs) st.fittingModelNames 0 st).1.logLikelihoodDict from rfl] at hm
        rw [h3, hl] at hm
        simpa using hm
    obtain ⟨j, hjlt, hgetj⟩ := exists_get?_of_mem_take st.fittingModelNames k name hmem
    obtain ⟨name2, c, p, hget2, hsweep, -, -, -⟩ := h4 j hjlt
    have hnn : name2 = name := by
      rw [hgetj] at hget2
      exact (Option.some.inj hget2).symm
    subst hnn
    exact ⟨0 + j, all_ok_of_sweepConditions_ok (0 + j) name2 (c0 :: cs) 0 0 (c, p) hsweep⟩

/-- C3 witness: a failing fit aborts the first sweep step, propagating the
error with the aggregator state unchanged. -/
theorem fit_error_aborts_step_witness :
    fitAllGo [witCondFail] ["m1"] 0 witState = (witState, some "boom") :=
  (fit_error_aborts_step [witCondFail] witState (by simp) (by simp [witState]) rfl rfl
    rfl).1 0 "m1" [] witState "boom" (by simp [sweepConditions, witCondFail])

theorem bestModelList_all_present (n : String) :
    ∀ conds : List CondModels,
      (∀ f ∈ conds, (lookupA f.fittingModelDict n).isSome = true) →
      ∃ ms, bestModelList conds n = .ok ms ∧ ms.length = conds.length ∧
        ∀ j f, conds.get? j = some f → ms.get? j = lookupA f.fittingModelDict n := by
  intro conds
  induction conds with
  | nil =>
    intro _
    refine ⟨[], rfl, rfl, ?_⟩
    intro j f h
    simp at h
  | cons f0 rest ih =>
    intro hall
    obtain ⟨m0, hm0⟩ := Option.isSome_iff_exists.mp (hall f0 (List.mem_cons_self f0 rest))
    obtain ⟨ms, hms, hlen, hget⟩ := ih (fun g hg => hall g (List.mem_cons_of_mem f0 hg))
    refine ⟨m0 :: ms, ?_, by simp [hlen], ?_⟩
    · simp [bestModelList, hm0, hms]
    · intro j f hj
      cases j with
      | zero =>
        simp only [List.get?] at hj ⊢
        cases hj
        rw [hm0]
      | succ j2 =>
        simp only [List.get?] at hj ⊢
        exact hget j2 f hj

theorem bestModelList_missing (n : String) :
    ∀ conds : List CondModels,
      (∃ f ∈ conds, lookupA f.fittingModelDict n = none) →
      ∃ e, bestModelList conds n = .error e := by
  intro conds
  induction conds with
  | nil =>
    rintro ⟨f, hf, -⟩
    simp at hf
  | cons f0 rest ih =>
    rintro ⟨f, hf, hnone⟩
    cases hl : lookupA f0.fittingModelDict n with
    | none => exact ⟨"KeyError", by simp [bestModelList, hl]⟩
    | some m0 =>
      rcases List.mem_cons.mp hf with rfl | hf2
      · rw [hl] at hnone
        cases hnone
      · obtain ⟨e, he⟩ := ih ⟨f, hf2, hnone⟩
        exact ⟨e, by simp [bestModelList, hl, he]⟩

/-- C8: getBestModel called with an explicit model name that every
sub-problem has fit returns the list of per-condition fitted models for
that name, of length N, in condition order; if some sub-problem lacks the
name, the call fails with a lookup error. -/
theorem getBestModel_explicit_name (g : Int → Except String String)
    (conds : List CondModels) (n : String) (mi : Int) :
    ((∀ f ∈ conds, (lookupA f.fittingModelDict n).isSome = true) →
      ∃ ms, getBestModel g conds (some n) mi = .ok ms ∧ ms.length = conds.length ∧
        ∀ j f, conds.get? j = some f → ms.get? j = lookupA f.fittingModelDict n) ∧
    ((∃ f ∈ conds, lookupA f.fittingModelDict n = none) →
      ∃ e, getBestModel g conds (some n) mi = .error e) :=
  ⟨fun hall => bestModelList_all_present n conds hall,
   fun hmiss => bestModelList_missing n conds hmiss⟩

/-- Sub-problem model dictionaries used by the C8 witness. -/
def witCondsM : List CondModels := [⟨[("m1", 11)]⟩, ⟨[("m1", 22), ("m2", 33)]⟩]

/-- C8 witness: with the name present in both sub-problems the call
succeeds; with a name missing from the first sub-problem it fails. -/
theorem getBestModel_explicit_name_witness :
    isOkE (getBestModel (fun _ => .error "unused") witCondsM (some "m1") (-4)) = true ∧
    isOkE (getBestModel (fun _ => .error "unused") witCondsM (some "m2") (-4)) = false := by
  obtain ⟨ms, hms, -, -⟩ := (getBestModel_explicit_name (fun _ => .error "unused")
    witCondsM "m1" (-4)).1 (by simp [witCondsM, lookupA])
  obtain ⟨e, he⟩ := (getBestModel_explicit_name (fun _ => .error "unused")
    witCondsM "m2" (-4)).2 ⟨⟨[("m1", 11)]⟩, by simp [witCondsM], by simp [lookupA]⟩
  rw [hms, he]
  exact ⟨rfl, rfl⟩

end FPMC
